import Mathlib

/-! ICP library.

Embedding of `include/icp/icp.hpp` (parameters, results, the setters of the
engine) and of `createTransformationMatrix` from `src/main.cpp`.

C++ templates become Lean definitions generic in their type arguments. A
finite `float` is kept as the rational it denotes, and a decimal literal is
rounded to `double` and then to `float` as the C++ conversions do.
-/

set_option linter.dupNamespace false

namespace icp

/-! ## Scalars -/

/-- Value of a C++ `float`: a finite number (kept exact, as a rational), one
of the two infinities, or a NaN. -/
inductive CFloat where
  | finite (q : ℚ)
  | posInf
  | negInf
  | nan
deriving DecidableEq

namespace CFloat

instance : Zero CFloat := ⟨finite 0⟩

instance : One CFloat := ⟨finite 1⟩

/-- The quotient `n / d` rounded to the nearest natural number, a tie going
to the even one (the default IEEE-754 rounding). -/
def roundNearestEven (n d : Nat) : Nat :=
  let q := n / d
  let r := n % d
  if 2 * r < d then q
  else if d < 2 * r then q + 1
  else if q % 2 = 0 then q
  else q + 1

/-- The rational `q` rounded to the nearest value of the IEEE-754 binary
format with `prec` significand bits and largest exponent `emax` (24 and 127
for `float`, 53 and 1023 for `double`), ties to even. The values of the
format are the multiples `m * 2^t / 2^minExp` with `m < 2^prec`, where
`2^(-minExp)` is the smallest subnormal; `t` is chosen from the position of
the leading bit so that the significand `m` has at most `prec` bits, and a
result above the largest finite value `(2^prec - 1) * 2^(2 emax - 1) / 2^minExp`
becomes an infinity. -/
def roundToFormat (prec emax : Nat) (q : ℚ) : CFloat :=
  let minExp := emax + prec - 2
  let N := q.num.natAbs * 2 ^ minExp
  let t := Nat.log2 (N / q.den) + 1 - prec
  let m := roundNearestEven N (q.den * 2 ^ t)
  if (2 ^ prec - 1) * 2 ^ (2 * emax - 1) < m * 2 ^ t then
    if q.num < 0 then negInf else posInf
  else
    finite ((if q.num < 0 then -1 else 1) * ((m * 2 ^ t : Nat) : ℚ) / ((2 ^ minExp : Nat) : ℚ))

/-- The conversion of a `double` to `float`: the finite values are rounded
to binary32, infinities and NaNs are kept. -/
def ofDouble : CFloat → CFloat
  | finite q => roundToFormat 24 127 q
  | x => x

/-- A decimal literal such as `10e-5` is a `double`, the binary64 value
nearest to the decimal; stored in a `float` it is converted to binary32. -/
instance : OfScientific CFloat :=
  ⟨fun m s e => ofDouble (roundToFormat 53 1023 (OfScientific.ofScientific m s e))⟩

/-- Counterpart of `std::isfinite`. -/
def isFinite : CFloat → Bool
  | finite _ => true
  | _ => false

/-- Comparison `a < b` of two floats; every comparison with a NaN is false. -/
def lt : CFloat → CFloat → Bool
  | finite a, finite b => decide (a < b)
  | finite _, posInf => true
  | negInf, finite _ => true
  | negInf, posInf => true
  | _, _ => false

/-- Comparison `a <= b` of two floats; every comparison with a NaN is false. -/
def le : CFloat → CFloat → Bool
  | finite a, finite b => decide (a ≤ b)
  | finite _, posInf => true
  | negInf, finite _ => true
  | negInf, negInf => true
  | posInf, posInf => true
  | negInf, posInf => true
  | _, _ => false

end CFloat

/-- Number denoted by the finite IEEE-754 binary32 datum with sign bit `s`,
biased exponent `e` (0 to 254; 255 encodes infinities and NaNs) and 23-bit
fraction `m`: `m * 2^(-149)` for a subnormal (`e = 0`), and
`(2^23 + m) * 2^(e - 150)` otherwise. -/
def binary32Value (s : Bool) (e : Fin 255) (m : Fin (2 ^ 23)) : ℚ :=
  let mag : ℚ :=
    (if e.val = 0 then ((m.val * 2 : ℕ) : ℚ) else (((2 ^ 23 + m.val) * 2 ^ e.val : ℕ) : ℚ))
      / 2 ^ 150
  if s then -mag else mag

/-- Counterpart of `std::numeric_limits<Dtype>`: only `max()` is used. -/
class numeric_limits (Dtype : Type) where
  max : Dtype

/-- The function `std::numeric_limits<float>::max()` returns `FLT_MAX`, the
largest finite binary32 value `(2^24 - 1) * 2^104`. -/
instance : numeric_limits CFloat := ⟨CFloat.finite ((2 ^ 24 - 1) * 2 ^ 104)⟩

/-! ## `IcpParameters_` -/

/-- Optimisation parameters for ICP (`struct IcpParameters_`). -/
structure IcpParameters_ (Dtype Twist : Type) where
  lambda : Dtype
  max_iter : Int
  min_variation : Dtype
  max_correspondance_distance : Dtype
  initial_guess : Twist

/-- The fixed-size column vector `Eigen::Matrix<Dtype, n, 1>`. -/
abbrev Twist (Dtype : Type) (n : Nat) : Type := Fin n → Dtype

/-- The default constructor `IcpParameters_()`: `lambda(1), max_iter(10),
min_variation(10e-5), max_correspondance_distance(numeric_limits::max())`,
then `initial_guess = Twist::Zero()`. -/
def IcpParameters_.IcpParameters_ (Dtype Twist : Type) [One Dtype] [OfScientific Dtype]
    [numeric_limits Dtype] [Zero Twist] : IcpParameters_ Dtype Twist :=
  { lambda := 1
    max_iter := 10
    min_variation := 10e-5
    max_correspondance_distance := numeric_limits.max
    initial_guess := 0 }

/-! ## `IcpResults_` -/

/-- The pointer type `pcl::PointCloud<Point>::Ptr`: null, or a cloud given
by its sequence of points. -/
abbrev PcPtr (Point : Type) : Type := Option (List Point)

/-- Results for the ICP (`struct IcpResults_`). -/
structure IcpResults_ (Dtype Point : Type) where
  registeredPointCloud : PcPtr Point
  registrationError : List Dtype
  transformation : Matrix (Fin 4) (Fin 4) Dtype
  scale : Dtype

/-- Subtraction of two `size_t` values (64 bit, wrapping). -/
def size_t_sub (a b : Nat) : Nat := (a % 2 ^ 64 + 2 ^ 64 - b % 2 ^ 64) % 2 ^ 64

/-- The index `registrationError.size() - 1` that `getFinalError` reads. -/
def IcpResults_.finalErrorIndex {Dtype Point : Type} (r : IcpResults_ Dtype Point) : Nat :=
  size_t_sub r.registrationError.length 1

/-- The member `getFinalError`: `registrationError[registrationError.size() - 1]`.
The result is `none` when the index is outside the vector, where the C++
read has no defined value. -/
def IcpResults_.getFinalError {Dtype Point : Type} (r : IcpResults_ Dtype Point) :
    Option Dtype :=
  r.registrationError[r.finalErrorIndex]?

/-- The member `clear`: empties the error history and sets the transformation
to `Matrix<Dtype, 4, 4>::Zero(4, 4)`. -/
def IcpResults_.clear {Dtype Point : Type} [Zero Dtype] (r : IcpResults_ Dtype Point) :
    IcpResults_ Dtype Point :=
  { r with registrationError := [], transformation := 0 }

/-! ## The engine `Icp_` -/

/-- The part of `pcl::KdTreeFLANN` that the engine's setters touch: the
input cloud the tree was given. -/
structure KdTreeFLANN (Point : Type) where
  input_ : PcPtr Point

/-- The library call `pcl::KdTreeFLANN::setInputCloud(cloud)`: the tree takes
`cloud` as its input cloud (and indexes it). It returns `void` and does not
throw. -/
def KdTreeFLANN.setInputCloud {Point : Type} (_k : KdTreeFLANN Point) (cloud : PcPtr Point) :
    KdTreeFLANN Point :=
  { input_ := cloud }

/-- The data members of `class Icp_`. -/
structure Icp_ (Dtype Twist PointReference PointCurrent Error_ MEstimator : Type) where
  P_current_ : PcPtr PointCurrent
  kdtree_ : KdTreeFLANN PointReference
  P_ref_ : PcPtr PointReference
  err_ : Error_
  mestimator_ : MEstimator
  param_ : IcpParameters_ Dtype Twist
  r_ : IcpResults_ Dtype PointReference

namespace Icp_

variable {Dtype Twist PointReference PointCurrent Error_ MEstimator : Type}

/-- The member `setParameters`: `param_ = param`. -/
def setParameters (s : Icp_ Dtype Twist PointReference PointCurrent Error_ MEstimator)
    (param : IcpParameters_ Dtype Twist) :
    Icp_ Dtype Twist PointReference PointCurrent Error_ MEstimator :=
  { s with param_ := param }

/-- The const member `getParameters`: returns `param_`. -/
def getParameters (s : Icp_ Dtype Twist PointReference PointCurrent Error_ MEstimator) :
    IcpParameters_ Dtype Twist :=
  s.param_

/-- The member `setInputCurrent`: `P_current_ = in`. -/
def setInputCurrent (s : Icp_ Dtype Twist PointReference PointCurrent Error_ MEstimator)
    (inp : PcPtr PointCurrent) :
    Icp_ Dtype Twist PointReference PointCurrent Error_ MEstimator :=
  { s with P_current_ := inp }

/-- The member `setInputReference`: `P_ref_ = in; kdtree_.setInputCloud(P_ref_)`. -/
def setInputReference (s : Icp_ Dtype Twist PointReference PointCurrent Error_ MEstimator)
    (inp : PcPtr PointReference) :
    Icp_ Dtype Twist PointReference PointCurrent Error_ MEstimator :=
  let s1 := { s with P_ref_ := inp }
  { s1 with kdtree_ := s1.kdtree_.setInputCloud s1.P_ref_ }

/-- The const member `getResults`: returns `r_`. -/
def getResults (s : Icp_ Dtype Twist PointReference PointCurrent Error_ MEstimator) :
    IcpResults_ Dtype PointReference :=
  s.r_

/-- A call of one of the public members defined in `icp.hpp`. -/
inductive Call (Dtype Twist PointReference PointCurrent : Type) where
  | setParameters (param : IcpParameters_ Dtype Twist)
  | getParameters
  | setInputCurrent (inp : PcPtr PointCurrent)
  | setInputReference (inp : PcPtr PointReference)
  | getResults

/-- The engine after a call; the two const getters leave it as it was. -/
def step (s : Icp_ Dtype Twist PointReference PointCurrent Error_ MEstimator) :
    Call Dtype Twist PointReference PointCurrent →
      Icp_ Dtype Twist PointReference PointCurrent Error_ MEstimator
  | .setParameters param => s.setParameters param
  | .getParameters => s
  | .setInputCurrent inp => s.setInputCurrent inp
  | .setInputReference inp => s.setInputReference inp
  | .getResults => s

/-- The engine after a sequence of calls, first call first. -/
def steps (s : Icp_ Dtype Twist PointReference PointCurrent Error_ MEstimator)
    (calls : List (Call Dtype Twist PointReference PointCurrent)) :
    Icp_ Dtype Twist PointReference PointCurrent Error_ MEstimator :=
  calls.foldl step s

end Icp_

/-- Modelled from the spec: the failure kinds of section 7 (the sources
define no error type). -/
inductive IcpError where
  | ConfigurationError
  | CorrespondenceStarvation
  | NumericalSingularity
deriving DecidableEq

/-- Modelled from the spec: the terminal states of the engine (section 4.5);
the body of `run()` is missing from the sources. -/
inductive Terminal where
  | Converged
  | MaxIterationsReached
  | Failed (e : IcpError)
deriving DecidableEq

/-- Modelled from the spec: what `run()` needs from the components it calls
(sections 4.1 to 4.4, none of them in the sources). `exp` is the exponential
map of a twist, `error` the total error of a transform before any
iteration, `iterate` the steps 1 to 7 of one iteration (it fails, or gives
the updated transform and the total error of the iteration), and `matrix`,
`scale`, `registered` read the outputs off the final transform. -/
structure IterationKernel (Dtype Twist Transform PointReference PointCurrent : Type) where
  exp : Twist → Transform
  error : Transform → Dtype
  iterate : IcpParameters_ Dtype Twist → Transform → Except IcpError (Transform × Dtype)
  matrix : Transform → Matrix (Fin 4) (Fin 4) Dtype
  scale : Transform → Dtype
  registered : Transform → PcPtr PointCurrent → PcPtr PointReference

/-- Modelled from the spec: the working state of the loop of `run()`, whose
body is missing from the sources: the current transform, the error history,
the error of the previous iteration and the count of iterations performed. -/
structure RunState (Dtype Transform : Type) where
  transform : Transform
  registrationError : List Dtype
  previousError : Dtype
  iterations : Int

/-- Modelled from the spec: the loop of `run()` (section 4.5, steps 1 to 8),
whose body is missing from the sources. One pass performs an iteration; a
failed iteration stops as `Failed` with the history accumulated so far;
otherwise the error is appended (step 7), and the loop stops as `Converged`
when `|error_i - error_{i-1}| < min_variation`, as `MaxIterationsReached`
when the iteration count hits `max_iter`, and continues otherwise (step 8).
`none` means that the fuel ran out before the loop stopped. -/
def runLoop {Dtype Twist Transform PointReference PointCurrent : Type}
    [LinearOrderedField Dtype]
    (K : IterationKernel Dtype Twist Transform PointReference PointCurrent)
    (param : IcpParameters_ Dtype Twist) :
    Nat → RunState Dtype Transform → Option (Terminal × RunState Dtype Transform)
  | 0, _ => none
  | fuel + 1, st =>
    match K.iterate param st.transform with
    | Except.error e => some (Terminal.Failed e, st)
    | Except.ok (T, err) =>
      let st1 : RunState Dtype Transform :=
        { transform := T
          registrationError := st.registrationError ++ [err]
          previousError := err
          iterations := st.iterations + 1 }
      if |err - st.previousError| < param.min_variation then
        some (Terminal.Converged, st1)
      else if st1.iterations = param.max_iter then
        some (Terminal.MaxIterationsReached, st1)
      else
        runLoop K param fuel st1

/-- Modelled from the spec: what `run()` leaves, its body being missing from
the sources: the terminal state, the number of iterations performed and the
engine with its Results. -/
structure RunOutcome (Dtype Twist PointReference PointCurrent Error_ MEstimator : Type) where
  terminal : Terminal
  iterations : Int
  engine : Icp_ Dtype Twist PointReference PointCurrent Error_ MEstimator

/-- Modelled from the spec: `run()` (sections 3, 4.5 and 7), whose body is
missing from the sources. Results start empty. If a cloud or the index is
unset the run fails with `ConfigurationError` and performs no iteration.
Otherwise the pre-registration error of the initial guess is the first entry
of the history, the loop runs to a terminal state, and the Results hold the
history, the final transform, its scale and the registered cloud. -/
def run {Dtype Twist Transform PointReference PointCurrent Error_ MEstimator : Type}
    [LinearOrderedField Dtype]
    (K : IterationKernel Dtype Twist Transform PointReference PointCurrent)
    (s : Icp_ Dtype Twist PointReference PointCurrent Error_ MEstimator) (fuel : Nat) :
    Option (RunOutcome Dtype Twist PointReference PointCurrent Error_ MEstimator) :=
  if s.P_current_.isNone || s.P_ref_.isNone || s.kdtree_.input_.isNone then
    some { terminal := Terminal.Failed IcpError.ConfigurationError
           iterations := 0
           engine := { s with r_ := { s.r_ with registrationError := [] } } }
  else
    let T0 := K.exp s.param_.initial_guess
    let e0 := K.error T0
    let st0 : RunState Dtype Transform :=
      { transform := T0, registrationError := [e0], previousError := e0, iterations := 0 }
    match runLoop K s.param_ fuel st0 with
    | none => none
    | some (t, st) =>
      some { terminal := t
             iterations := st.iterations
             engine :=
               { s with
                 r_ := { registeredPointCloud := K.registered st.transform s.P_current_
                         registrationError := st.registrationError
                         transformation := K.matrix st.transform
                         scale := K.scale st.transform } } }

end icp

/-! ## `createTransformationMatrix` (`src/main.cpp`) -/

namespace Main

variable {T : Type} [CommRing T]

/-- The 4x4 matrix of an `Eigen::Transform<T, 3, Eigen::Affine>`. -/
abbrev Affine3 (T : Type) : Type := Matrix (Fin 4) (Fin 4) T

/-- The column vector `Eigen::Matrix<T, 3, 1>`. -/
abbrev Vector3 (T : Type) : Type := Fin 3 → T

/-- The vector `Vector3::UnitX()`. -/
def Vector3.UnitX : Vector3 T := ![1, 0, 0]

/-- The vector `Vector3::UnitY()`. -/
def Vector3.UnitY : Vector3 T := ![0, 1, 0]

/-- The vector `Vector3::UnitZ()`. -/
def Vector3.UnitZ : Vector3 T := ![0, 0, 1]

/-- The rotation `Eigen::AngleAxis<T>(angle, axis)`. -/
structure AngleAxis (T : Type) where
  m_angle : T
  m_axis : Vector3 T

/-- The Eigen member `AngleAxis::toRotationMatrix` (Rodrigues formula), with
the scalar functions `cos` and `sin` of `T` passed in: off the diagonal
`(1 - c) * a_i * a_j -+ s * a_k`, on the diagonal `(1 - c) * a_i * a_i + c`. -/
def AngleAxis.toRotationMatrix (cos sin : T → T) (a : AngleAxis T) : Matrix (Fin 3) (Fin 3) T :=
  let sin_axis : Vector3 T := fun i => sin a.m_angle * a.m_axis i
  let c := cos a.m_angle
  let cos1_axis : Vector3 T := fun i => (1 - c) * a.m_axis i
  let t01 := cos1_axis 0 * a.m_axis 1
  let t02 := cos1_axis 0 * a.m_axis 2
  let t12 := cos1_axis 1 * a.m_axis 2
  !![cos1_axis 0 * a.m_axis 0 + c, t01 - sin_axis 2, t02 + sin_axis 1;
     t01 + sin_axis 2, cos1_axis 1 * a.m_axis 1 + c, t12 - sin_axis 0;
     t02 - sin_axis 1, t12 + sin_axis 0, cos1_axis 2 * a.m_axis 2 + c]

/-- The conversion `Affine3(Eigen::AngleAxis<T>(..))`: linear part the
rotation matrix, no translation, last row `(0, 0, 0, 1)`. -/
def Affine3.ofAngleAxis (cos sin : T → T) (a : AngleAxis T) : Affine3 T :=
  let R := a.toRotationMatrix cos sin
  !![R 0 0, R 0 1, R 0 2, 0;
     R 1 0, R 1 1, R 1 2, 0;
     R 2 0, R 2 1, R 2 2, 0;
     0, 0, 0, 1]

/-- The conversion `Affine3(Eigen::Translation<T, 3>(v))`: linear part the
identity, translation `v`, last row `(0, 0, 0, 1)`. -/
def Affine3.ofTranslation (v : Vector3 T) : Affine3 T :=
  !![1, 0, 0, v 0;
     0, 1, 0, v 1;
     0, 0, 1, v 2;
     0, 0, 0, 1]

/-- The function `createTransformationMatrix(tx, ty, tz, rx, ry, rz)`:
`r` is the product of the three axis rotations, `t` the translation, and the
result is `(t * r).matrix()`. The scalar functions `cos` and `sin` of `T` are
passed in. -/
def createTransformationMatrix (cos sin : T → T) (tx ty tz rx ry rz : T) : Matrix (Fin 4) (Fin 4) T :=
  let r : Affine3 T :=
    Affine3.ofAngleAxis cos sin ⟨rx, Vector3.UnitX⟩
      * Affine3.ofAngleAxis cos sin ⟨ry, Vector3.UnitY⟩
      * Affine3.ofAngleAxis cos sin ⟨rz, Vector3.UnitZ⟩
  let t : Affine3 T := Affine3.ofTranslation ![tx, ty, tz]
  t * r

/-- The elementary rotation by `θ` about the x axis, from its cosine `c` and
sine `s`. -/
def Rx (c s : T) : Matrix (Fin 3) (Fin 3) T :=
  !![1, 0, 0;
     0, c, -s;
     0, s, c]

/-- The elementary rotation about the y axis, from its cosine and sine. -/
def Ry (c s : T) : Matrix (Fin 3) (Fin 3) T :=
  !![c, 0, s;
     0, 1, 0;
     -s, 0, c]

/-- The elementary rotation about the z axis, from its cosine and sine. -/
def Rz (c s : T) : Matrix (Fin 3) (Fin 3) T :=
  !![c, -s, 0;
     s, c, 0;
     0, 0, 1]

/-- The homogeneous matrix `[R, t; 0, 1]` of the doc comment of
`createTransformationMatrix`. -/
def homogeneous (R : Matrix (Fin 3) (Fin 3) T) (t : Vector3 T) : Matrix (Fin 4) (Fin 4) T :=
  !![R 0 0, R 0 1, R 0 2, t 0;
     R 1 0, R 1 1, R 1 2, t 1;
     R 2 0, R 2 1, R 2 2, t 2;
     0, 0, 0, 1]

/-- The upper-left 3x3 block of a 4x4 matrix. -/
def rotationBlock (M : Matrix (Fin 4) (Fin 4) T) : Matrix (Fin 3) (Fin 3) T :=
  fun i j => M (Fin.castSucc i) (Fin.castSucc j)

/-- The first three entries of the last column of a 4x4 matrix. -/
def translationColumn (M : Matrix (Fin 4) (Fin 4) T) : Vector3 T :=
  fun i => M (Fin.castSucc i) 3

/-- The point `M * (p, 1)` without its last coordinate: what
`pcl::transformPointCloud` computes for each point of the cloud in `main`. -/
def transformPoint (M : Matrix (Fin 4) (Fin 4) T) (p : Vector3 T) : Vector3 T :=
  fun i =>
    M (Fin.castSucc i) 0 * p 0 + M (Fin.castSucc i) 1 * p 1 + M (Fin.castSucc i) 2 * p 2
      + M (Fin.castSucc i) 3

/-- The squared Euclidean distance between two points. -/
def sqDist (p q : Vector3 T) : T :=
  (p 0 - q 0) ^ 2 + (p 1 - q 1) ^ 2 + (p 2 - q 2) ^ 2

end Main

/-! ## Traces and sample values -/

namespace icp

/-- The argument of the last `setInputReference` among `calls`, or `c` when
there is none. -/
def Icp_.lastReference {Dtype Twist PointReference PointCurrent : Type}
    (c : PcPtr PointReference) (calls : List (Icp_.Call Dtype Twist PointReference PointCurrent)) :
    PcPtr PointReference :=
  calls.foldl
    (fun cur call =>
      match call with
      | Icp_.Call.setInputReference inp => inp
      | _ => cur)
    c

/-- A point `pcl::PointXYZ`, by its three coordinates. -/
abbrev PointXYZ : Type := Fin 3 → ℚ

/-- An engine over exact scalars with both clouds set to the unit square of
section 8 of the spec, the index over the reference cloud, `max_iter = 3`
and `min_variation = 1/10`. -/
def sampleEngine : Icp_ ℚ (Twist ℚ 6) PointXYZ PointXYZ Unit Unit :=
  { P_current_ := some [![0, 0, 0], ![1, 0, 0], ![1, 1, 0], ![0, 1, 0]]
    kdtree_ := { input_ := some [![0, 0, 0], ![1, 0, 0], ![1, 1, 0], ![0, 1, 0]] }
    P_ref_ := some [![0, 0, 0], ![1, 0, 0], ![1, 1, 0], ![0, 1, 0]]
    err_ := ()
    mestimator_ := ()
    param_ :=
      { lambda := 1, max_iter := 3, min_variation := 1 / 10,
        max_correspondance_distance := 100, initial_guess := 0 }
    r_ := { registeredPointCloud := none, registrationError := [], transformation := 0,
            scale := 1 } }

/-- A toy kernel for `sampleEngine`: a transform is a single number, the
error of a transform is that number, the initial guess maps to 1 and every
iteration halves the transform. -/
def sampleKernel : IterationKernel ℚ (Twist ℚ 6) ℚ PointXYZ PointXYZ :=
  { exp := fun _ => 1
    error := fun t => t
    iterate := fun _ t => Except.ok (t / 2, t / 2)
    matrix := fun t => t • (1 : Matrix (Fin 4) (Fin 4) ℚ)
    scale := fun _ => 1
    registered := fun _ c => c }

end icp

/-! # Theorems -/

namespace icp

/-! ## `getFinalError` and `clear` -/

/-- For a vector that fits the address space, `size() - 1` does not wrap
unless the vector is empty. -/
theorem size_t_sub_one_of_pos {n : Nat} (hpos : 0 < n) (hlt : n < 2 ^ 64) :
    size_t_sub n 1 = n - 1 := by
  unfold size_t_sub
  rw [Nat.mod_eq_of_lt hlt]
  norm_num
  omega

/-- On an empty vector `size() - 1` wraps to the largest `size_t`. -/
theorem size_t_sub_zero_one : size_t_sub 0 1 = 2 ^ 64 - 1 := by
  unfold size_t_sub
  norm_num

/-- C1. On a non-empty error history (of a size a `std::vector` can have),
`getFinalError` reads index `size - 1` and returns the last entry: the error
appended last when the history is an initial error followed by iteration
errors, and the initial error when the history has length 1. -/
theorem getFinalError_last {Dtype Point : Type} (r : IcpResults_ Dtype Point)
    (hne : r.registrationError ≠ []) (hsz : r.registrationError.length < 2 ^ 64) :
    r.finalErrorIndex = r.registrationError.length - 1 ∧
    r.getFinalError = some (r.registrationError.getLast hne) ∧
    (∀ (init : Dtype) (iters : List Dtype) (e : Dtype),
      r.registrationError = init :: (iters ++ [e]) → r.getFinalError = some e) ∧
    (∀ init : Dtype, r.registrationError = [init] → r.getFinalError = some init) := by
  have hpos : 0 < r.registrationError.length := List.length_pos.mpr hne
  have hidx : r.finalErrorIndex = r.registrationError.length - 1 :=
    size_t_sub_one_of_pos hpos hsz
  have hlast : r.getFinalError = some (r.registrationError.getLast hne) := by
    unfold IcpResults_.getFinalError
    rw [hidx, List.getLast_eq_getElem]
    exact List.getElem?_eq_getElem _
  refine ⟨hidx, hlast, ?_, ?_⟩
  · intro init iters e h
    rw [hlast]
    simp [h]
  · intro init h
    rw [hlast]
    simp [h]

/-- C1, on the history `3, 1, 1/2` (an initial error and two iterations). -/
theorem getFinalError_last_witness :
    (⟨none, [3, 1, 1 / 2], 1, 1⟩ : IcpResults_ ℚ Unit).registrationError ≠ [] ∧
    (⟨none, [3, 1, 1 / 2], 1, 1⟩ : IcpResults_ ℚ Unit).registrationError.length < 2 ^ 64 ∧
    (⟨none, [3, 1, 1 / 2], 1, 1⟩ : IcpResults_ ℚ Unit).finalErrorIndex = 2 ∧
    (⟨none, [3, 1, 1 / 2], 1, 1⟩ : IcpResults_ ℚ Unit).getFinalError = some (1 / 2) :=
  ⟨by simp, by simp,
    (getFinalError_last (⟨none, [3, 1, 1 / 2], 1, 1⟩ : IcpResults_ ℚ Unit)
      (by simp) (by simp)).1,
    (getFinalError_last (⟨none, [3, 1, 1 / 2], 1, 1⟩ : IcpResults_ ℚ Unit)
      (by simp) (by simp)).2.2.1 3 [1] (1 / 2) rfl⟩

/-- C2. After `clear()` the history is empty, the index `size() - 1` that
`getFinalError` reads is `2^64 - 1`, which is outside the empty vector, and
the read gives no entry. -/
theorem getFinalError_clear_out_of_bounds {Dtype Point : Type} [Zero Dtype]
    (r : IcpResults_ Dtype Point) :
    r.clear.registrationError.length = 0 ∧
    r.clear.finalErrorIndex = 2 ^ 64 - 1 ∧
    ¬ (r.clear.finalErrorIndex < r.clear.registrationError.length) ∧
    r.clear.getFinalError = none := by
  have hidx : r.clear.finalErrorIndex = 2 ^ 64 - 1 := size_t_sub_zero_one
  refine ⟨rfl, hidx, ?_, ?_⟩
  · simp [IcpResults_.clear]
  · simp [IcpResults_.getFinalError, IcpResults_.clear]

/-- C10. The member `clear` empties the error history, sets the
transformation to the zero matrix (every entry 0, the last row included, so
it is not the identity), keeps `scale` and `registeredPointCloud`, and
clearing twice is the same as clearing once. -/
theorem clear_frame {Point : Type} (r : IcpResults_ CFloat Point) :
    r.clear.registrationError = [] ∧
    r.clear.transformation = 0 ∧
    (∀ i j, r.clear.transformation i j = 0) ∧
    r.clear.transformation ≠ 1 ∧
    (∀ j, r.clear.transformation 3 j = 0) ∧
    r.clear.transformation 3 3 ≠ 1 ∧
    r.clear.scale = r.scale ∧
    r.clear.registeredPointCloud = r.registeredPointCloud ∧
    r.clear.clear = r.clear := by
  have h01 : (0 : CFloat) ≠ 1 := by decide
  refine ⟨rfl, rfl, fun _ _ => rfl, ?_, fun _ => rfl, h01, rfl, rfl, rfl⟩
  intro h
  have h33 := congrFun (congrFun h 3) 3
  exact h01 (by simpa [IcpResults_.clear] using h33)

/-! ## Default parameters -/

/-- The largest finite binary32 datum (exponent 254, fraction all ones)
denotes `(2^24 - 1) * 2^104`. -/
theorem binary32Value_largest :
    binary32Value false ⟨254, by norm_num⟩ ⟨2 ^ 23 - 1, by norm_num⟩ = (2 ^ 24 - 1) * 2 ^ 104 := by
  norm_num [binary32Value]

/-- No finite binary32 datum denotes more than `(2^24 - 1) * 2^104`. -/
theorem binary32Value_le_max (s : Bool) (e : Fin 255) (m : Fin (2 ^ 23)) :
    binary32Value s e m ≤ (2 ^ 24 - 1) * 2 ^ 104 := by
  have hm : m.val + 1 ≤ 2 ^ 23 := m.isLt
  have he : e.val ≤ 254 := Nat.lt_succ_iff.mp e.isLt
  have hmag : ((if e.val = 0 then ((m.val * 2 : ℕ) : ℚ)
      else (((2 ^ 23 + m.val) * 2 ^ e.val : ℕ) : ℚ)) / 2 ^ 150) ≤ (2 ^ 24 - 1) * 2 ^ 104 := by
    rw [div_le_iff₀ (by positivity)]
    have hnat : (if e.val = 0 then m.val * 2 else (2 ^ 23 + m.val) * 2 ^ e.val)
        ≤ (2 ^ 24 - 1) * 2 ^ 254 := by
      split
      · calc m.val * 2 ≤ 2 ^ 23 * 2 := Nat.mul_le_mul_right _ (by omega)
          _ ≤ (2 ^ 24 - 1) * 2 ^ 254 := by norm_num
      · exact Nat.mul_le_mul (by omega) (Nat.pow_le_pow_right (by norm_num) he)
    have hcast : ((if e.val = 0 then ((m.val * 2 : ℕ) : ℚ)
        else (((2 ^ 23 + m.val) * 2 ^ e.val : ℕ) : ℚ)))
        = (((if e.val = 0 then m.val * 2 else (2 ^ 23 + m.val) * 2 ^ e.val) : ℕ) : ℚ) := by
      split <;> rfl
    rw [hcast]
    calc (((if e.val = 0 then m.val * 2 else (2 ^ 23 + m.val) * 2 ^ e.val) : ℕ) : ℚ)
        ≤ (((2 ^ 24 - 1) * 2 ^ 254 : ℕ) : ℚ) := by exact_mod_cast hnat
      _ = (2 ^ 24 - 1) * 2 ^ 104 * 2 ^ 150 := by norm_num
  have hnonneg : (0 : ℚ) ≤ ((if e.val = 0 then ((m.val * 2 : ℕ) : ℚ)
      else (((2 ^ 23 + m.val) * 2 ^ e.val : ℕ) : ℚ)) / 2 ^ 150) := by
    apply div_nonneg _ (by positivity)
    split <;> exact Nat.cast_nonneg _
  unfold binary32Value
  cases s
  · simpa using hmag
  · simp only [if_true]
    have hpos : (0 : ℚ) ≤ (2 ^ 24 - 1) * 2 ^ 104 := by norm_num
    linarith

/-- C3, as stated, fails: the default `max_correspondance_distance` is not
`+infinity`, it is a finite number, and the finite float
`(2^24 - 1) * 2^104` is not smaller than it. -/
theorem default_max_correspondance_distance_not_infinity :
    (IcpParameters_.IcpParameters_ CFloat (Twist CFloat 6)).max_correspondance_distance
      ≠ CFloat.posInf ∧
    (IcpParameters_.IcpParameters_ CFloat (Twist CFloat 6)).max_correspondance_distance.isFinite
      = true ∧
    ¬ (∀ (s : Bool) (e : Fin 255) (m : Fin (2 ^ 23)),
        CFloat.lt (CFloat.finite (binary32Value s e m))
          (IcpParameters_.IcpParameters_ CFloat (Twist CFloat 6)).max_correspondance_distance
          = true) := by
  refine ⟨by decide, rfl, ?_⟩
  intro h
  have h1 := h false ⟨254, by norm_num⟩ ⟨2 ^ 23 - 1, by norm_num⟩
  rw [binary32Value_largest] at h1
  simp [IcpParameters_.IcpParameters_, numeric_limits.max, CFloat.lt] at h1

/-- C3, amended. The default `max_correspondance_distance` is
`numeric_limits<float>::max()`, the largest finite float
`(2^24 - 1) * 2^104`: it is finite, it is not `+infinity`, it is the value of
the binary32 datum with exponent 254 and fraction all ones, and every finite
float `d` satisfies `d <= max_correspondance_distance`. The same holds for
the 7-component twist. -/
theorem default_max_correspondance_distance_largest_finite (n : Nat) :
    (IcpParameters_.IcpParameters_ CFloat (Twist CFloat n)).max_correspondance_distance
      = CFloat.finite ((2 ^ 24 - 1) * 2 ^ 104) ∧
    (IcpParameters_.IcpParameters_ CFloat (Twist CFloat n)).max_correspondance_distance
      = CFloat.finite (binary32Value false ⟨254, by norm_num⟩ ⟨2 ^ 23 - 1, by norm_num⟩) ∧
    (IcpParameters_.IcpParameters_ CFloat (Twist CFloat n)).max_correspondance_distance.isFinite
      = true ∧
    (IcpParameters_.IcpParameters_ CFloat (Twist CFloat n)).max_correspondance_distance
      ≠ CFloat.posInf ∧
    (∀ (s : Bool) (e : Fin 255) (m : Fin (2 ^ 23)),
      CFloat.le (CFloat.finite (binary32Value s e m))
        (IcpParameters_.IcpParameters_ CFloat (Twist CFloat n)).max_correspondance_distance
        = true) := by
  refine ⟨rfl, ?_, rfl, by simp [IcpParameters_.IcpParameters_, numeric_limits.max], ?_⟩
  · rw [binary32Value_largest]
    rfl
  · intro s e m
    simpa [IcpParameters_.IcpParameters_, numeric_limits.max, CFloat.le]
      using binary32Value_le_max s e m

/-- The position of the leading bit: `log2 x = k` when `2^k <= x < 2^(k+1)`. -/
theorem log2_eq_of_bounds {x k : Nat} (h1 : 2 ^ k ≤ x) (h2 : x < 2 ^ (k + 1)) :
    Nat.log2 x = k := by
  have hx : x ≠ 0 := by
    have : 0 < 2 ^ k := Nat.two_pow_pos k
    omega
  have h3 : k ≤ Nat.log2 x := (Nat.le_log2 hx).mpr h1
  have h4 : Nat.log2 x < k + 1 := (Nat.log2_lt hx).mpr h2
  omega

/-- The result of `roundToFormat` on a non-negative rational `n / d` whose
scaled quotient has its leading bit at position `L`, whose significand
rounds to `m`, and which does not overflow. -/
theorem roundToFormat_finite (prec emax : Nat) (q : ℚ) (n d L m : Nat)
    (hnum : q.num = (n : ℤ)) (hden : q.den = d)
    (hL : Nat.log2 (n * 2 ^ (emax + prec - 2) / d) = L)
    (hm : CFloat.roundNearestEven (n * 2 ^ (emax + prec - 2)) (d * 2 ^ (L + 1 - prec)) = m)
    (hfin : m * 2 ^ (L + 1 - prec) ≤ (2 ^ prec - 1) * 2 ^ (2 * emax - 1)) :
    CFloat.roundToFormat prec emax q
      = CFloat.finite
          (((m * 2 ^ (L + 1 - prec) : Nat) : ℚ) / ((2 ^ (emax + prec - 2) : Nat) : ℚ)) := by
  have hneg : ¬ (q.num < 0) := by
    rw [hnum]
    exact not_lt.mpr (Int.natCast_nonneg n)
  unfold CFloat.roundToFormat
  simp only [hnum, hden, Int.natAbs_ofNat, hL, hm, if_neg (not_lt.mpr hfin)]
  rw [hnum] at hneg
  rw [if_neg hneg, one_mul]

section

set_option exponentiation.threshold 4096

/-- The `double` nearest to the decimal `10e-5`. -/
theorem double_10e_5 :
    CFloat.roundToFormat 53 1023 (1 / 10000) = CFloat.finite (7378697629483821 / 2 ^ 66) := by
  rw [roundToFormat_finite 53 1023 (1 / 10000) 1 10000 1060 7378697629483821
    (by norm_num) (by norm_num) (log2_eq_of_bounds (by norm_num) (by norm_num))
    (by norm_num [CFloat.roundNearestEven]) (by norm_num)]
  congr 1
  norm_num

end

/-- The `float` nearest to the `double` of `10e-5`. -/
theorem float_of_double_10e_5 :
    CFloat.roundToFormat 24 127 (7378697629483821 / 2 ^ 66)
      = CFloat.finite (13743895 / 2 ^ 37) := by
  rw [roundToFormat_finite 24 127 (7378697629483821 / 2 ^ 66) 7378697629483821 (2 ^ 66) 135
    13743895
    (by norm_num) (by norm_num) (log2_eq_of_bounds (by norm_num) (by norm_num))
    (by norm_num [CFloat.roundNearestEven]) (by norm_num)]
  congr 1
  norm_num

/-- The literal `10e-5` stored in a `float` is `13743895 / 2^37`. -/
theorem float_literal_10e_5 :
    (OfScientific.ofScientific 10 true 5 : CFloat) = CFloat.finite (13743895 / 2 ^ 37) := by
  show CFloat.ofDouble (CFloat.roundToFormat 53 1023 (OfScientific.ofScientific 10 true 5)) = _
  have h : (OfScientific.ofScientific 10 true 5 : ℚ) = 1 / 10000 := by norm_num
  rw [h, double_10e_5]
  exact float_of_double_10e_5

/-- Every finite binary32 value is a natural number over `2^150`, up to its
sign. -/
theorem binary32Value_form (s : Bool) (e : Fin 255) (m : Fin (2 ^ 23)) :
    ∃ K : Nat, binary32Value s e m = (if s then -1 else 1) * ((K : ℚ) / 2 ^ 150) := by
  refine ⟨if e.val = 0 then m.val * 2 else (2 ^ 23 + m.val) * 2 ^ e.val, ?_⟩
  unfold binary32Value
  cases s <;> split <;> simp

/-- No finite binary32 value equals `1/10000`. -/
theorem binary32Value_ne_one_ten_thousandth (s : Bool) (e : Fin 255) (m : Fin (2 ^ 23)) :
    binary32Value s e m ≠ 1 / 10000 := by
  obtain ⟨K, hK⟩ := binary32Value_form s e m
  rw [hK]
  intro h
  cases s
  · have h1 : (K : ℚ) * 10000 = 2 ^ 150 := by
      simp only [Bool.false_eq_true, if_false, one_mul] at h
      field_simp at h
      linarith
    have h2 : K * 10000 = 2 ^ 150 := by exact_mod_cast h1
    have h3 : 5 ∣ 2 ^ 150 := ⟨K * 2000, by omega⟩
    have h4 : 5 ∣ 2 := Nat.Prime.dvd_of_dvd_pow Nat.prime_five h3
    omega
  · have h0 : (0 : ℚ) ≤ (K : ℚ) / 2 ^ 150 := by positivity
    simp only [if_true] at h
    linarith

/-- C4, as stated, fails: the default `min_variation` is not exactly
`1/10000`; the literal `10e-5` stored in a `float` is `13743895 / 2^37`. -/
theorem default_min_variation_not_exact :
    (IcpParameters_.IcpParameters_ CFloat (Twist CFloat 6)).min_variation
      ≠ CFloat.finite (1 / 10000) ∧
    (IcpParameters_.IcpParameters_ CFloat (Twist CFloat 6)).min_variation
      = CFloat.finite (13743895 / 2 ^ 37) := by
  have hv : (IcpParameters_.IcpParameters_ CFloat (Twist CFloat 6)).min_variation
      = CFloat.finite (13743895 / 2 ^ 37) := float_literal_10e_5
  refine ⟨?_, hv⟩
  rw [hv]
  intro h
  have hq : (13743895 / 2 ^ 37 : ℚ) = 1 / 10000 := CFloat.finite.inj h
  norm_num at hq

/-- C4, amended. The default-constructed parameters are valid: `lambda = 1 > 0`,
`max_iter = 10 > 0`, `max_correspondance_distance > 0`, every component of
`initial_guess` is 0 for a twist of any size `n` (6 and 7 in the typedefs),
and `min_variation` is positive; it is the float `13743895 / 2^37` (exponent
field 113, fraction 5355287) that the literal `10e-5` rounds to, just below
`1/10000`, which no float equals. -/
theorem default_parameters_valid (n : Nat) :
    (IcpParameters_.IcpParameters_ CFloat (Twist CFloat n)).lambda = CFloat.finite 1 ∧
    CFloat.lt 0 (IcpParameters_.IcpParameters_ CFloat (Twist CFloat n)).lambda = true ∧
    (IcpParameters_.IcpParameters_ CFloat (Twist CFloat n)).max_iter = 10 ∧
    0 < (IcpParameters_.IcpParameters_ CFloat (Twist CFloat n)).max_iter ∧
    (IcpParameters_.IcpParameters_ CFloat (Twist CFloat n)).min_variation
      = CFloat.finite (13743895 / 2 ^ 37) ∧
    (IcpParameters_.IcpParameters_ CFloat (Twist CFloat n)).min_variation
      = CFloat.finite (binary32Value false ⟨113, by norm_num⟩ ⟨5355287, by norm_num⟩) ∧
    CFloat.lt 0 (IcpParameters_.IcpParameters_ CFloat (Twist CFloat n)).min_variation = true ∧
    CFloat.lt (IcpParameters_.IcpParameters_ CFloat (Twist CFloat n)).min_variation
      (CFloat.finite (1 / 10000)) = true ∧
    (∀ (s : Bool) (e : Fin 255) (m : Fin (2 ^ 23)), binary32Value s e m ≠ 1 / 10000) ∧
    CFloat.lt 0 (IcpParameters_.IcpParameters_ CFloat (Twist CFloat n)).max_correspondance_distance
      = true ∧
    (∀ i : Fin n, (IcpParameters_.IcpParameters_ CFloat (Twist CFloat n)).initial_guess i
      = CFloat.finite 0) := by
  have hv : (IcpParameters_.IcpParameters_ CFloat (Twist CFloat n)).min_variation
      = CFloat.finite (13743895 / 2 ^ 37) := float_literal_10e_5
  refine ⟨rfl, ?_, rfl, by simp [IcpParameters_.IcpParameters_], hv, ?_, ?_, ?_,
    binary32Value_ne_one_ten_thousandth, ?_, fun _ => rfl⟩
  · show CFloat.lt (CFloat.finite 0) (CFloat.finite 1) = true
    simp [CFloat.lt]
  · exact hv.trans (congrArg CFloat.finite (by norm_num [binary32Value]))
  · rw [hv]
    show CFloat.lt (CFloat.finite 0) (CFloat.finite (13743895 / 2 ^ 37)) = true
    norm_num [CFloat.lt]
  · rw [hv]
    norm_num [CFloat.lt]
  · show CFloat.lt (CFloat.finite 0) (CFloat.finite ((2 ^ 24 - 1) * 2 ^ 104)) = true
    norm_num [CFloat.lt]

end icp

namespace icp

/-! ## The setters of the engine -/

namespace Icp_

variable {Dtype Twist PointReference PointCurrent Error_ MEstimator : Type}

/-- Every call keeps the kd-tree's input cloud equal to the reference cloud. -/
theorem step_preserves_index (s : Icp_ Dtype Twist PointReference PointCurrent Error_ MEstimator)
    (h : s.kdtree_.input_ = s.P_ref_) (call : Call Dtype Twist PointReference PointCurrent) :
    (s.step call).kdtree_.input_ = (s.step call).P_ref_ := by
  cases call <;> first | exact h | rfl

/-- A sequence of calls keeps the kd-tree's input cloud equal to the
reference cloud. -/
theorem steps_preserve_index (calls : List (Call Dtype Twist PointReference PointCurrent)) :
    ∀ s : Icp_ Dtype Twist PointReference PointCurrent Error_ MEstimator,
      s.kdtree_.input_ = s.P_ref_ → (s.steps calls).kdtree_.input_ = (s.steps calls).P_ref_ := by
  induction calls with
  | nil => intro s h; exact h
  | cons call rest ih =>
    intro s h
    exact ih (s.step call) (step_preserves_index s h call)

/-- After a sequence of calls the reference cloud is the one given by the
last `setInputReference` of the sequence. -/
theorem steps_P_ref (calls : List (Call Dtype Twist PointReference PointCurrent)) :
    ∀ s : Icp_ Dtype Twist PointReference PointCurrent Error_ MEstimator,
      (s.steps calls).P_ref_ = lastReference s.P_ref_ calls := by
  induction calls with
  | nil => intro s; rfl
  | cons call rest ih =>
    intro s
    have h := ih (s.step call)
    cases call <;> exact h

end Icp_

/-- C5. After `setInputReference(c)` the reference cloud and the kd-tree's
input cloud are both `c`. After any further sequence of calls of
`setParameters`, `getParameters`, `setInputCurrent`, `setInputReference` and
`getResults` the kd-tree's input cloud still equals the reference cloud, and
both are the cloud of the last `setInputReference` (`c` if there was none
later). The calls `setInputCurrent` and `setParameters` change neither the
kd-tree nor the reference cloud, and the two getters change nothing. -/
theorem index_reflects_reference
    {Dtype Twist PointReference PointCurrent Error_ MEstimator : Type}
    (s : Icp_ Dtype Twist PointReference PointCurrent Error_ MEstimator)
    (c : PcPtr PointReference)
    (calls : List (Icp_.Call Dtype Twist PointReference PointCurrent))
    (x : PcPtr PointCurrent) (param : IcpParameters_ Dtype Twist) :
    (s.setInputReference c).P_ref_ = c ∧
    (s.setInputReference c).kdtree_.input_ = c ∧
    ((s.setInputReference c).steps calls).kdtree_.input_
      = ((s.setInputReference c).steps calls).P_ref_ ∧
    ((s.setInputReference c).steps calls).P_ref_ = Icp_.lastReference c calls ∧
    (s.setInputCurrent x).kdtree_ = s.kdtree_ ∧
    (s.setInputCurrent x).P_ref_ = s.P_ref_ ∧
    (s.setParameters param).kdtree_ = s.kdtree_ ∧
    (s.setParameters param).P_ref_ = s.P_ref_ ∧
    s.step Icp_.Call.getParameters = s ∧
    s.step Icp_.Call.getResults = s :=
  ⟨rfl, rfl, Icp_.steps_preserve_index calls (s.setInputReference c) rfl,
    Icp_.steps_P_ref calls (s.setInputReference c), rfl, rfl, rfl, rfl, rfl, rfl⟩

/-- From a state with fewer than `max_iter` iterations performed, the loop
stops within the remaining number of passes: it returns, the iteration count
does not exceed `max_iter`, and the history was extended by one entry per
iteration performed. -/
theorem runLoop_returns {Dtype Twist Transform PointReference PointCurrent : Type}
    [LinearOrderedField Dtype]
    (K : IterationKernel Dtype Twist Transform PointReference PointCurrent)
    (param : IcpParameters_ Dtype Twist) :
    ∀ (fuel : Nat) (st : RunState Dtype Transform),
      st.iterations < param.max_iter → param.max_iter - st.iterations ≤ (fuel : Int) →
      ∃ t st1, runLoop K param fuel st = some (t, st1) ∧
        st.iterations ≤ st1.iterations ∧ st1.iterations ≤ param.max_iter ∧
        ∃ tail : List Dtype, st1.registrationError = st.registrationError ++ tail ∧
          (tail.length : Int) = st1.iterations - st.iterations := by
  intro fuel
  induction fuel with
  | zero =>
    intro st hlt hfuel
    simp at hfuel
    omega
  | succ fuel ih =>
    intro st hlt hfuel
    unfold runLoop
    cases hit : K.iterate param st.transform with
    | error e =>
      exact ⟨Terminal.Failed e, st, rfl, le_refl _, le_of_lt hlt, [], by simp, by simp⟩
    | ok res =>
      obtain ⟨T, err⟩ := res
      simp only
      split
      · exact ⟨Terminal.Converged, _, rfl, by simp, by simp; omega, [err], rfl, by simp⟩
      · split
        · exact ⟨Terminal.MaxIterationsReached, _, rfl, by simp, by simp; omega, [err], rfl,
            by simp⟩
        · rename_i hne
          obtain ⟨t, st1, hrun, h1, h2, tail, h3, h4⟩ :=
            ih { transform := T
                 registrationError := st.registrationError ++ [err]
                 previousError := err
                 iterations := st.iterations + 1 }
              (by simp only; omega) (by simp only; push_cast at hfuel; omega)
          refine ⟨t, st1, hrun, by simp only at h1; omega, h2, err :: tail, ?_, ?_⟩
          · rw [h3]
            simp
          · simp only at h4
            simp only [List.length_cons]
            push_cast
            omega

/-- C7. With `max_iter` positive, `run()` returns once the loop is given at
least `max_iter` passes: it performs at most `max_iter` iterations and the
error history it leaves has at most `max_iter + 1` entries. When an
iteration was performed the history is non-empty and starts with the
pre-registration error, and unless the run failed with `ConfigurationError`
the history has one entry more than the number of iterations. -/
theorem run_terminates
    {Dtype Twist Transform PointReference PointCurrent Error_ MEstimator : Type}
    [LinearOrderedField Dtype]
    (K : IterationKernel Dtype Twist Transform PointReference PointCurrent)
    (s : Icp_ Dtype Twist PointReference PointCurrent Error_ MEstimator)
    (hpos : 0 < s.param_.max_iter) (fuel : Nat) (hfuel : s.param_.max_iter ≤ (fuel : Int)) :
    ∃ out, run K s fuel = some out ∧
      0 ≤ out.iterations ∧ out.iterations ≤ s.param_.max_iter ∧
      (out.engine.r_.registrationError.length : Int) ≤ s.param_.max_iter + 1 ∧
      (1 ≤ out.iterations →
        1 ≤ out.engine.r_.registrationError.length ∧
        out.engine.r_.registrationError.head? = some (K.error (K.exp s.param_.initial_guess))) ∧
      (out.terminal ≠ Terminal.Failed IcpError.ConfigurationError →
        (out.engine.r_.registrationError.length : Int) = out.iterations + 1) := by
  unfold run
  split
  · refine ⟨_, rfl, le_refl _, le_of_lt hpos, ?_, ?_, ?_⟩
    · simp only [List.length_nil]
      push_cast
      omega
    · intro h
      simp at h
    · intro h
      exact absurd rfl h
  · obtain ⟨t, st1, hrun, h1, h2, tail, h3, h4⟩ :=
      runLoop_returns K s.param_ fuel
        { transform := K.exp s.param_.initial_guess
          registrationError := [K.error (K.exp s.param_.initial_guess)]
          previousError := K.error (K.exp s.param_.initial_guess)
          iterations := 0 }
        hpos (by simpa using hfuel)
    simp only at h1 h3 h4
    simp only [hrun]
    have hlen : (st1.registrationError.length : Int) = st1.iterations + 1 := by
      rw [h3]
      simp only [List.length_append, List.length_singleton, List.length_cons, List.length_nil]
      push_cast
      omega
    refine ⟨_, rfl, h1, h2, ?_, ?_, ?_⟩
    · simp only
      omega
    · intro _
      simp only
      refine ⟨?_, ?_⟩
      · omega
      · rw [h3]
        rfl
    · intro _
      exact hlen

/-- C7, on the sample engine (`max_iter = 3`) with the halving kernel. -/
theorem run_terminates_witness :
    0 < sampleEngine.param_.max_iter ∧
    ∃ out, run sampleKernel sampleEngine 3 = some out ∧
      0 ≤ out.iterations ∧ out.iterations ≤ sampleEngine.param_.max_iter ∧
      (out.engine.r_.registrationError.length : Int) ≤ sampleEngine.param_.max_iter + 1 ∧
      (1 ≤ out.iterations →
        1 ≤ out.engine.r_.registrationError.length ∧
        out.engine.r_.registrationError.head?
          = some (sampleKernel.error (sampleKernel.exp sampleEngine.param_.initial_guess))) ∧
      (out.terminal ≠ Terminal.Failed IcpError.ConfigurationError →
        (out.engine.r_.registrationError.length : Int) = out.iterations + 1) :=
  ⟨by decide, run_terminates sampleKernel sampleEngine (by decide) 3 (by decide)⟩

/-- On the sample engine the run stops as `MaxIterationsReached` after 3
iterations with the history `1, 1/2, 1/4, 1/8`. -/
theorem run_sample :
    (run sampleKernel sampleEngine 3).map
        (fun out => (out.terminal, out.iterations, out.engine.r_.registrationError))
      = some (Terminal.MaxIterationsReached, 3, [1, 1 / 2, 1 / 4, 1 / 8]) := by
  norm_num [run, runLoop, sampleKernel, sampleEngine, abs_lt]

end icp

/-! ## `createTransformationMatrix` -/

namespace Main

variable {T : Type} [CommRing T]

/-- Product of two homogeneous matrices. -/
theorem homogeneous_mul (A B : Matrix (Fin 3) (Fin 3) T) (a b : Vector3 T) :
    homogeneous A a * homogeneous B b = homogeneous (A * B) (A.mulVec b + a) := by
  ext i j
  fin_cases i <;> fin_cases j <;>
    simp [homogeneous, Matrix.mul_apply, Matrix.mulVec, Matrix.dotProduct, Fin.sum_univ_succ] <;>
    ring

/-- The homogeneous matrix of the identity rotation and no translation. -/
theorem homogeneous_one_zero : homogeneous (1 : Matrix (Fin 3) (Fin 3) T) 0 = 1 := by
  ext i j
  fin_cases i <;> fin_cases j <;> rfl

/-- The rotation block of a homogeneous matrix. -/
theorem rotationBlock_homogeneous (R : Matrix (Fin 3) (Fin 3) T) (t : Vector3 T) :
    rotationBlock (homogeneous R t) = R := by
  ext i j
  fin_cases i <;> fin_cases j <;> rfl

/-- The translation column of a homogeneous matrix. -/
theorem translationColumn_homogeneous (R : Matrix (Fin 3) (Fin 3) T) (t : Vector3 T) :
    translationColumn (homogeneous R t) = t := by
  ext i
  fin_cases i <;> rfl

/-- The affine transform of a rotation about the x axis. -/
theorem ofAngleAxis_UnitX (cos sin : T → T) (rx : T) :
    Affine3.ofAngleAxis cos sin ⟨rx, Vector3.UnitX⟩ = homogeneous (Rx (cos rx) (sin rx)) 0 := by
  ext i j
  fin_cases i <;> fin_cases j <;>
    simp [Affine3.ofAngleAxis, AngleAxis.toRotationMatrix, Vector3.UnitX, homogeneous, Rx]

/-- The affine transform of a rotation about the y axis. -/
theorem ofAngleAxis_UnitY (cos sin : T → T) (ry : T) :
    Affine3.ofAngleAxis cos sin ⟨ry, Vector3.UnitY⟩ = homogeneous (Ry (cos ry) (sin ry)) 0 := by
  ext i j
  fin_cases i <;> fin_cases j <;>
    simp [Affine3.ofAngleAxis, AngleAxis.toRotationMatrix, Vector3.UnitY, homogeneous, Ry]

/-- The affine transform of a rotation about the z axis. -/
theorem ofAngleAxis_UnitZ (cos sin : T → T) (rz : T) :
    Affine3.ofAngleAxis cos sin ⟨rz, Vector3.UnitZ⟩ = homogeneous (Rz (cos rz) (sin rz)) 0 := by
  ext i j
  fin_cases i <;> fin_cases j <;>
    simp [Affine3.ofAngleAxis, AngleAxis.toRotationMatrix, Vector3.UnitZ, homogeneous, Rz]

/-- The affine transform of a translation. -/
theorem ofTranslation_eq (v : Vector3 T) :
    Affine3.ofTranslation v = homogeneous 1 v := by
  ext i j
  fin_cases i <;> fin_cases j <;> simp [Affine3.ofTranslation, homogeneous]

/-- The result of `createTransformationMatrix` in block form, for any scalar
functions `cos` and `sin`. -/
theorem createTransformationMatrix_eq (cos sin : T → T) (tx ty tz rx ry rz : T) :
    createTransformationMatrix cos sin tx ty tz rx ry rz
      = homogeneous (Rx (cos rx) (sin rx) * Ry (cos ry) (sin ry) * Rz (cos rz) (sin rz))
          ![tx, ty, tz] := by
  unfold createTransformationMatrix
  simp only [ofAngleAxis_UnitX, ofAngleAxis_UnitY, ofAngleAxis_UnitZ, ofTranslation_eq,
    homogeneous_mul, Matrix.mulVec_zero, add_zero, Matrix.one_mul, zero_add]

/-- A rotation about the x axis is orthogonal. -/
theorem Rx_orthogonal (c s : T) (h : c ^ 2 + s ^ 2 = 1) :
    (Rx c s).transpose * Rx c s = 1 := by
  ext i j
  fin_cases i <;> fin_cases j <;>
    simp [Rx, Matrix.mul_apply, Fin.sum_univ_succ] <;>
    first | ring1 | linear_combination h

/-- A rotation about the y axis is orthogonal. -/
theorem Ry_orthogonal (c s : T) (h : c ^ 2 + s ^ 2 = 1) :
    (Ry c s).transpose * Ry c s = 1 := by
  ext i j
  fin_cases i <;> fin_cases j <;>
    simp [Ry, Matrix.mul_apply, Fin.sum_univ_succ] <;>
    first | ring1 | linear_combination h

/-- A rotation about the z axis is orthogonal. -/
theorem Rz_orthogonal (c s : T) (h : c ^ 2 + s ^ 2 = 1) :
    (Rz c s).transpose * Rz c s = 1 := by
  ext i j
  fin_cases i <;> fin_cases j <;>
    simp [Rz, Matrix.mul_apply, Fin.sum_univ_succ] <;>
    first | ring1 | linear_combination h

/-- A rotation about the x axis has determinant 1. -/
theorem Rx_det (c s : T) (h : c ^ 2 + s ^ 2 = 1) : (Rx c s).det = 1 := by
  rw [Matrix.det_fin_three]
  simp [Rx]
  linear_combination h

/-- A rotation about the y axis has determinant 1. -/
theorem Ry_det (c s : T) (h : c ^ 2 + s ^ 2 = 1) : (Ry c s).det = 1 := by
  rw [Matrix.det_fin_three]
  simp [Ry]
  linear_combination h

/-- A rotation about the z axis has determinant 1. -/
theorem Rz_det (c s : T) (h : c ^ 2 + s ^ 2 = 1) : (Rz c s).det = 1 := by
  rw [Matrix.det_fin_three]
  simp [Rz]
  linear_combination h

/-- The product of two orthogonal matrices is orthogonal. -/
theorem orthogonal_mul (A B : Matrix (Fin 3) (Fin 3) T)
    (hA : A.transpose * A = 1) (hB : B.transpose * B = 1) :
    (A * B).transpose * (A * B) = 1 := by
  rw [Matrix.transpose_mul, Matrix.mul_assoc, ← Matrix.mul_assoc A.transpose, hA,
    Matrix.one_mul, hB]

/-- The homogeneous matrix of an orthogonal `R` has the inverse
`[Rᵀ, -Rᵀ t; 0, 1]`. -/
theorem homogeneous_inverse (R : Matrix (Fin 3) (Fin 3) T) (t : Vector3 T)
    (hR : R.transpose * R = 1) :
    homogeneous R t * homogeneous R.transpose (-(R.transpose.mulVec t)) = 1 ∧
    homogeneous R.transpose (-(R.transpose.mulVec t)) * homogeneous R t = 1 := by
  have hR2 : R * R.transpose = 1 := Matrix.mul_eq_one_comm.mp hR
  constructor
  · rw [homogeneous_mul, hR2, Matrix.mulVec_neg, Matrix.mulVec_mulVec, hR2, Matrix.one_mulVec,
      neg_add_cancel, homogeneous_one_zero]
  · rw [homogeneous_mul, hR, add_neg_cancel, homogeneous_one_zero]

/-- A homogeneous matrix maps the point `p` to `R p + t`. -/
theorem transformPoint_homogeneous (R : Matrix (Fin 3) (Fin 3) T) (t p : Vector3 T) (i : Fin 3) :
    transformPoint (homogeneous R t) p i = R i 0 * p 0 + R i 1 * p 1 + R i 2 * p 2 + t i := by
  fin_cases i <;> rfl

/-- The homogeneous matrix of an orthogonal `R` preserves the squared
distance between two points. -/
theorem sqDist_transformPoint_homogeneous (R : Matrix (Fin 3) (Fin 3) T) (t : Vector3 T)
    (hR : R.transpose * R = 1) (p q : Vector3 T) :
    sqDist (transformPoint (homogeneous R t) p) (transformPoint (homogeneous R t) q)
      = sqDist p q := by
  have h00 := congrFun (congrFun hR 0) 0
  have h01 := congrFun (congrFun hR 0) 1
  have h02 := congrFun (congrFun hR 0) 2
  have h11 := congrFun (congrFun hR 1) 1
  have h12 := congrFun (congrFun hR 1) 2
  have h22 := congrFun (congrFun hR 2) 2
  simp [Matrix.mul_apply, Fin.sum_univ_succ] at h00 h01 h02 h11 h12 h22
  simp only [sqDist, transformPoint_homogeneous]
  linear_combination
    (p 0 - q 0) ^ 2 * h00 + 2 * (p 0 - q 0) * (p 1 - q 1) * h01
      + 2 * (p 0 - q 0) * (p 2 - q 2) * h02 + (p 1 - q 1) ^ 2 * h11
      + 2 * (p 1 - q 1) * (p 2 - q 2) * h12 + (p 2 - q 2) ^ 2 * h22

/-- The rotation block of the result, for a cosine and sine function with
`cos ^ 2 + sin ^ 2 = 1`, is orthogonal with determinant 1. -/
theorem rotation_product_orthogonal (cos sin : T → T)
    (h : ∀ x, cos x ^ 2 + sin x ^ 2 = 1) (rx ry rz : T) :
    (Rx (cos rx) (sin rx) * Ry (cos ry) (sin ry) * Rz (cos rz) (sin rz)).transpose
        * (Rx (cos rx) (sin rx) * Ry (cos ry) (sin ry) * Rz (cos rz) (sin rz)) = 1 ∧
    (Rx (cos rx) (sin rx) * Ry (cos ry) (sin ry) * Rz (cos rz) (sin rz)).det = 1 := by
  constructor
  · exact orthogonal_mul _ _
      (orthogonal_mul _ _ (Rx_orthogonal _ _ (h rx)) (Ry_orthogonal _ _ (h ry)))
      (Rz_orthogonal _ _ (h rz))
  · rw [Matrix.det_mul, Matrix.det_mul, Rx_det _ _ (h rx), Ry_det _ _ (h ry), Rz_det _ _ (h rz)]
    simp

/-- The three elementary rotations by the angle with cosine 1 and sine 0
are the identity. -/
theorem elementary_rotations_one :
    Rx (1 : T) 0 = 1 ∧ Ry (1 : T) 0 = 1 ∧ Rz (1 : T) 0 = 1 := by
  refine ⟨?_, ?_, ?_⟩ <;> simp [Rx, Ry, Rz, Matrix.one_fin_three]

/-- C8. For all real arguments `createTransformationMatrix` returns the
homogeneous matrix `[R, T; 0, 1]` with `R = Rx(rx) * Ry(ry) * Rz(rz)`: the
upper-left 3x3 block is that product, the last column is `(tx, ty, tz, 1)`,
the bottom row is `(0, 0, 0, 1)`, and with all six arguments 0 the result is
the identity matrix. -/
theorem createTransformationMatrix_spec (tx ty tz rx ry rz : ℝ) :
    createTransformationMatrix Real.cos Real.sin tx ty tz rx ry rz
      = homogeneous
          (Rx (Real.cos rx) (Real.sin rx) * Ry (Real.cos ry) (Real.sin ry)
            * Rz (Real.cos rz) (Real.sin rz))
          ![tx, ty, tz] ∧
    rotationBlock (createTransformationMatrix Real.cos Real.sin tx ty tz rx ry rz)
      = Rx (Real.cos rx) (Real.sin rx) * Ry (Real.cos ry) (Real.sin ry)
          * Rz (Real.cos rz) (Real.sin rz) ∧
    (createTransformationMatrix Real.cos Real.sin tx ty tz rx ry rz 0 3 = tx ∧
      createTransformationMatrix Real.cos Real.sin tx ty tz rx ry rz 1 3 = ty ∧
      createTransformationMatrix Real.cos Real.sin tx ty tz rx ry rz 2 3 = tz ∧
      createTransformationMatrix Real.cos Real.sin tx ty tz rx ry rz 3 3 = 1) ∧
    (createTransformationMatrix Real.cos Real.sin tx ty tz rx ry rz 3 0 = 0 ∧
      createTransformationMatrix Real.cos Real.sin tx ty tz rx ry rz 3 1 = 0 ∧
      createTransformationMatrix Real.cos Real.sin tx ty tz rx ry rz 3 2 = 0) ∧
    createTransformationMatrix Real.cos Real.sin (0 : ℝ) 0 0 0 0 0 = 1 := by
  have hM := createTransformationMatrix_eq Real.cos Real.sin tx ty tz rx ry rz
  refine ⟨hM, ?_, ?_, ?_, ?_⟩
  · rw [hM, rotationBlock_homogeneous]
  · rw [hM]
    exact ⟨rfl, rfl, rfl, rfl⟩
  · rw [hM]
    exact ⟨rfl, rfl, rfl⟩
  · rw [createTransformationMatrix_eq, Real.cos_zero, Real.sin_zero]
    obtain ⟨hx, hy, hz⟩ := elementary_rotations_one (T := ℝ)
    have h0 : (![0, 0, 0] : Vector3 ℝ) = 0 := by
      ext i
      fin_cases i <;> rfl
    rw [hx, hy, hz, mul_one, mul_one, h0, homogeneous_one_zero]

/-- C9. For all real arguments the upper-left block `R` of the result of
`createTransformationMatrix` satisfies `Rᵀ R = 1` and `det R = 1`; the result
`M` has the two-sided inverse `[Rᵀ, -Rᵀ T; 0, 1]`, and mapping points through
`M` preserves the Euclidean distance between every pair of points. -/
theorem createTransformationMatrix_rigid (tx ty tz rx ry rz : ℝ) :
    (rotationBlock (createTransformationMatrix Real.cos Real.sin tx ty tz rx ry rz)).transpose
        * rotationBlock (createTransformationMatrix Real.cos Real.sin tx ty tz rx ry rz) = 1 ∧
    (rotationBlock (createTransformationMatrix Real.cos Real.sin tx ty tz rx ry rz)).det = 1 ∧
    createTransformationMatrix Real.cos Real.sin tx ty tz rx ry rz
        * homogeneous
            (rotationBlock (createTransformationMatrix Real.cos Real.sin tx ty tz rx ry rz)).transpose
            (-((rotationBlock
                (createTransformationMatrix Real.cos Real.sin tx ty tz rx ry rz)).transpose.mulVec
              (translationColumn
                (createTransformationMatrix Real.cos Real.sin tx ty tz rx ry rz)))) = 1 ∧
    homogeneous
          (rotationBlock (createTransformationMatrix Real.cos Real.sin tx ty tz rx ry rz)).transpose
          (-((rotationBlock
              (createTransformationMatrix Real.cos Real.sin tx ty tz rx ry rz)).transpose.mulVec
            (translationColumn
              (createTransformationMatrix Real.cos Real.sin tx ty tz rx ry rz))))
        * createTransformationMatrix Real.cos Real.sin tx ty tz rx ry rz = 1 ∧
    (∀ p q : Vector3 ℝ,
      Real.sqrt
          (sqDist
            (transformPoint (createTransformationMatrix Real.cos Real.sin tx ty tz rx ry rz) p)
            (transformPoint (createTransformationMatrix Real.cos Real.sin tx ty tz rx ry rz) q))
        = Real.sqrt (sqDist p q)) := by
  have hM := createTransformationMatrix_eq Real.cos Real.sin tx ty tz rx ry rz
  obtain ⟨horth, hdet⟩ :=
    rotation_product_orthogonal Real.cos Real.sin Real.cos_sq_add_sin_sq rx ry rz
  rw [hM, rotationBlock_homogeneous, translationColumn_homogeneous]
  obtain ⟨hinv1, hinv2⟩ := homogeneous_inverse _ ![tx, ty, tz] horth
  refine ⟨horth, hdet, hinv1, hinv2, ?_⟩
  intro p q
  rw [sqDist_transformPoint_homogeneous _ _ horth]

end Main
